import Mathlib

/-!
Verification of the RAG chatbot pipeline (`Retrieval_Augmented_Generation_RAG_Chatbot.ipynb`).

The notebook is glue code over langchain / Chroma / Gradio.  The glue itself
(knowledge-base globbing, `add_metadata`, the `chat` wrapper) is embedded
directly from the notebook.  The third-party components it configures
(the character text splitter, the Chroma vector store, the conversation
buffer memory and the conversational retrieval chain) are not part of the
repository's source; they are modelled from the specification's description
of their contracts, with each such definition marked `Modelled from the spec`.

Text is modelled as `List Char`, file paths as `List String` (one entry per
path component), and Python dicts of metadata as ordered association lists
with in-place update semantics.
-/

namespace RAG

/-- Lookup in a metadata association list (Python `dict` access): first
binding of the key wins (keys are unique under `setMeta`). -/
def getMeta : List (String × String) → String → Option String
  | [], _ => none
  | (k, v) :: t, key => if k = key then some v else getMeta t key

/-- Python `dict` item assignment `d[key] = val`: replaces the binding in
place if the key is present, otherwise appends a new binding. -/
def setMeta : List (String × String) → String → String → List (String × String)
  | [], key, val => [(key, val)]
  | (k, v) :: t, key, val =>
      if k = key then (key, val) :: t else (k, v) :: setMeta t key val

/-- A langchain `Document`: source path (kept structured as its list of path
components, mirroring the loader's `source` metadata), page content as a
character list, and the remaining metadata dict. -/
structure Doc where
  source : List String
  page_content : List Char
  metadata : List (String × String)
  deriving DecidableEq, Repr

/-- The notebook's `add_metadata(doc, doc_type)`: sets `doc.metadata["doc_type"] = doc_type`
and returns the document. -/
def add_metadata (doc : Doc) (doc_type : String) : Doc :=
  { doc with metadata := setMeta doc.metadata "doc_type" doc_type }

/-! ### Document loader

The notebook does `folders = glob.glob("knowledge-base/*")`, then for each
folder runs `DirectoryLoader(folder, glob="**/*.md", loader_cls=TextLoader)`
and tags each loaded document with `doc_type = os.path.basename(folder)`.
A filesystem is modelled as a list of files, each a path (list of
components) with content; a directory exists exactly when some file lies
under it. -/

/-- A file on disk: its path split into components, and its text content. -/
structure FSFile where
  path : List String
  content : List Char
  deriving DecidableEq, Repr

/-- The knowledge-base root directory hard-coded in the notebook. -/
def kbRoot : String := "knowledge-base"

/-- The `**/*.md` glob filter: the file name ends with `.md`. -/
def hasMdExt (name : String) : Bool :=
  List.isSuffixOf ".md".toList name.toList

/-- `glob.glob("knowledge-base/*")`, restricted to entries some file lives
under: the distinct first-level names below the root (an entry that is a
plain file or an empty directory contributes no documents downstream). -/
def folders (fs : List FSFile) : List String :=
  (fs.filterMap (fun file =>
    match file.path with
    | r :: f :: _ :: _ => if r = kbRoot then some f else none
    | _ => none)).dedup

/-- One step of `DirectoryLoader(folder, glob="**/*.md").load()`: a file
becomes a `Doc` of folder `f` when it lies (at any depth) below
`knowledge-base/f` and has the `.md` extension.  `TextLoader` reads the
file content; the loader records the source path. -/
def folderFileToDoc (f : String) (file : FSFile) : Option Doc :=
  match file.path with
  | r :: f' :: rest =>
      if r = kbRoot ∧ f' = f ∧ rest ≠ [] ∧ hasMdExt (String.intercalate "/" rest) then
        some { source := file.path, page_content := file.content, metadata := [] }
      else none
  | _ => none

/-- `loader.load()` for one folder: all markdown files below it. -/
def loadFolder (fs : List FSFile) (f : String) : List Doc :=
  fs.filterMap (folderFileToDoc f)

/-- The notebook's document-collection loop: for each folder, load its
markdown files and tag each with `doc_type` = the folder's base name. -/
def documents (fs : List FSFile) : List Doc :=
  (folders fs).flatMap (fun f => (loadFolder fs f).map (fun d => add_metadata d f))

/-- Whether a directory named `d` exists at the top level of the modelled
filesystem (some file lies under it). -/
def dirExistsB (fs : List FSFile) (d : String) : Bool :=
  fs.any (fun file => file.path.head? == some d)

/-- The notebook's loading stage wrapped in `Except` so that "ingestion
aborts" is statable: the Python code has no existence check on the root and
`glob.glob` raises nothing on a missing directory, so no execution path
produces an error. -/
def loadDocumentsE (fs : List FSFile) : Except String (List Doc) :=
  Except.ok (documents fs)

/-- The name of the immediate parent folder of a path: its second-to-last
component. -/
def parentOf (p : List String) : Option String :=
  p.dropLast.getLast?

/-! ### Chunker

`CharacterTextSplitter(chunk_size=1000, chunk_overlap=200)` is langchain
library code, not part of this repository.  Modelled from the spec:
"greedy fixed-window split on a plain separator (e.g. paragraph/newline
boundary, falling back to character boundary)", with the invariants
"chunk length ≤ configured maximum" and "consecutive chunks from the same
document overlap by a configured number of characters"; the spec leaves the
exact boundary rule open and asks for a concrete deterministic rule, so the
model is the deterministic character-boundary window: windows of
`size` characters advancing by `size - overlap`. -/

/-- Modelled from the spec: greedy fixed-window splitting loop.  `fuel`
bounds the recursion (it is always called with `fuel = cs.length`, which
suffices whenever the step `size - overlap` is positive). -/
def splitGo (size step : Nat) : Nat → List Char → List (List Char)
  | 0, cs => [cs]
  | fuel + 1, cs =>
      if cs.length ≤ size then [cs]
      else cs.take size :: splitGo size step fuel (cs.drop step)

/-- Modelled from the spec: split a text into chunks of at most `size`
characters, consecutive chunks overlapping in `overlap` characters. -/
def splitChunks (size overlap : Nat) (cs : List Char) : List (List Char) :=
  splitGo size (size - overlap) cs.length cs

/-- Splitting one `Document` yields `Chunk`s that inherit its source and
metadata (`split_documents` copies metadata onto every chunk). -/
def chunkDoc (d : Doc) : List Doc :=
  (splitChunks 1000 200 d.page_content).map
    (fun seg => { source := d.source, page_content := seg, metadata := d.metadata })

/-- `text_splitter.split_documents(documents)`. -/
def split_documents (docs : List Doc) : List Doc :=
  docs.flatMap chunkDoc

/-- The notebook's `chunks`: load everything, then split. -/
def chunks (fs : List FSFile) : List Doc :=
  split_documents (documents fs)

/-! ### Vector store

Chroma is an external library; the store is modelled from the spec's
`reset` / `add` / `query` / `count` contract (section 4.4).  Vectors are
lists of integers standing in for the embedding service's opaque vectors,
and the distance is the squared Euclidean distance, standing in for the
service's native metric. -/

/-- An embedded chunk as stored by the vector store: the chunk plus its
embedding vector. -/
structure EmbeddedChunk where
  chunk : Doc
  vec : List Int
  deriving DecidableEq, Repr

/-- Squared Euclidean distance between two vectors (a concrete stand-in for
the embedding service's native similarity metric). -/
def sqDist (a b : List Int) : Int :=
  ((a.zip b).map (fun p => (p.1 - p.2) ^ 2)).sum

/-- Modelled from the spec: the persisted vector collection, a list of
embedded chunks. -/
structure VectorStore where
  entries : List EmbeddedChunk
  deriving DecidableEq, Repr

/-- Modelled from the spec: `count()` returns the number of stored
vectors. -/
def VectorStore.count (s : VectorStore) : Nat :=
  s.entries.length

/-- Modelled from the spec: `reset()` deletes any existing persisted
collection (the notebook's `delete_collection()` guarded by
`os.path.exists`); the result holds no vectors whether or not the
collection existed. -/
def VectorStore.reset (_s : VectorStore) : VectorStore :=
  ⟨[]⟩

/-- Modelled from the spec: `add(EmbeddedChunk[])` inserts the entries. -/
def VectorStore.add (s : VectorStore) (cs : List EmbeddedChunk) : VectorStore :=
  ⟨s.entries ++ cs⟩

/-- Modelled from the spec: `query(v, k)` returns the `k` stored chunks
nearest to `v`, nearest first. -/
def VectorStore.query (s : VectorStore) (v : List Int) (k : Nat) : List EmbeddedChunk :=
  (s.entries.mergeSort (fun a b => decide (sqDist a.vec v ≤ sqDist b.vec v))).take k

/-- The notebook's rebuild: delete the existing collection if present, then
`Chroma.from_documents` over the corpus's embedded chunks. -/
def rebuildStore (s : VectorStore) (cs : List EmbeddedChunk) : VectorStore :=
  (s.reset).add cs

/-! ### Conversation memory

`ConversationBufferMemory` is langchain library code; modelled from the
spec's `append` / `history` contract (section 4.5): an append-only ordered
log with no eviction. -/

/-- One (question, answer) turn of the conversation. -/
structure ConversationTurn where
  question : String
  answer : String
  deriving DecidableEq, Repr

/-- Modelled from the spec: the conversation buffer, an ordered log of
turns. -/
structure Memory where
  turns : List ConversationTurn
  deriving DecidableEq, Repr

/-- Modelled from the spec: `append(question, answer)` adds one turn at the
end of the log. -/
def Memory.append (m : Memory) (q a : String) : Memory :=
  ⟨m.turns ++ [⟨q, a⟩]⟩

/-- Modelled from the spec: `history()` returns the ordered sequence of
turns. -/
def Memory.history (m : Memory) : List ConversationTurn :=
  m.turns

/-- Appending a whole sequence of turns one by one. -/
def Memory.appendAll (m : Memory) (ts : List ConversationTurn) : Memory :=
  ts.foldl (fun acc t => acc.append t.question t.answer) m

/-! ### Answer orchestrator

`ConversationalRetrievalChain` is langchain library code; the per-turn
state machine is modelled from the spec (section 4.6):
RECEIVE_QUESTION → EMBED_QUESTION → RETRIEVE(k) → ASSEMBLE_PROMPT →
CALL_LLM → RECORD_TURN → RETURN_ANSWER, where a failure at EMBED_QUESTION
or CALL_LLM surfaces as an error and records no turn.  The embedding
service and the chat completion service are opaque fallible functions. -/

/-- The orchestrator's external collaborators and configuration: the
embedding client, the chat completion client (each may fail, returning
`none`), the vector store and the retrieval breadth `k`. -/
structure OrchestratorEnv where
  embed : String → Option (List Int)
  llm : String → Option String
  store : VectorStore
  k : Nat

/-- Modelled from the spec: ASSEMBLE_PROMPT concatenates the retrieved
context, the full conversation history and the new question. -/
def assemblePrompt (ctx : List EmbeddedChunk) (hist : List ConversationTurn)
    (q : String) : String :=
  String.join (ctx.map (fun c => String.mk c.chunk.page_content))
    ++ String.join (hist.map (fun t => t.question ++ t.answer)) ++ q

/-- Modelled from the spec: one orchestrator turn.  Returns the memory to
continue the session with, and either the answer or the surfaced error. -/
def answerTurn (env : OrchestratorEnv) (mem : Memory) (q : String) :
    Memory × Except String String :=
  match env.embed q with
  | none => (mem, Except.error "embedding failed")
  | some v =>
      let ctx := env.store.query v env.k
      let prompt := assemblePrompt ctx mem.history q
      match env.llm prompt with
      | none => (mem, Except.error "chat completion failed")
      | some ans => (mem.append q ans, Except.ok ans)

/-- The conversational retrieval chain: its collaborators plus its own
internal conversation memory. -/
structure ChainState where
  env : OrchestratorEnv
  memory : Memory

/-- Modelled from the spec: `conversation_chain.invoke({"question": question})`
runs one orchestrator turn against the chain's internal memory. -/
def ChainState.invoke (c : ChainState) (question : String) :
    ChainState × Except String String :=
  let r := answerTurn c.env c.memory question
  (⟨c.env, r.1⟩, r.2)

/-- The notebook's Gradio callback, embedded from the source:
`def chat(question, history): result = conversation_chain.invoke({"question": question});
return result["answer"]` — the UI-supplied `history` parameter is bound but
never read. -/
def chat (c : ChainState) (question : String)
    (history : List (String × String)) : ChainState × Except String String :=
  ChainState.invoke c question

/-! ### Concrete fixtures used to instantiate the theorems -/

/-- A knowledge base holding one markdown file nested two levels below the
root: `knowledge-base/policies/sub/f.md`. -/
def fsNested : List FSFile :=
  [⟨["knowledge-base", "policies", "sub", "f.md"], "hello".toList⟩]

/-- A filesystem in which the `knowledge-base` root directory does not
exist. -/
def fsNoRoot : List FSFile :=
  [⟨["other-folder", "a.md"], "x".toList⟩]

/-- An orchestrator environment whose embedding client succeeds and whose
chat completion client always fails. -/
def envFailLLM : OrchestratorEnv :=
  ⟨fun _ => some [], fun _ => none, ⟨[]⟩, 4⟩

/-! ## Helper lemmas -/

theorem getMeta_setMeta_self (m : List (String × String)) (k v : String) :
    getMeta (setMeta m k v) k = some v := by
  induction m with
  | nil => simp [setMeta, getMeta]
  | cons p t ih =>
      rcases p with ⟨a, b⟩
      by_cases hp : a = k
      · simp [setMeta, getMeta, hp]
      · simp [setMeta, getMeta, hp, ih]

theorem getMeta_setMeta_of_ne (m : List (String × String)) (k v k' : String)
    (h : k' ≠ k) : getMeta (setMeta m k v) k' = getMeta m k' := by
  induction m with
  | nil => simp [setMeta, getMeta, Ne.symm h]
  | cons p t ih =>
      rcases p with ⟨a, b⟩
      by_cases hp : a = k
      · subst hp
        simp [setMeta, getMeta, Ne.symm h]
      · by_cases hq : a = k'
        · subst hq
          simp [setMeta, getMeta, hp]
        · simp [setMeta, getMeta, hp, hq, ih]

theorem splitGo_length_le (fuel : Nat) :
    ∀ cs : List Char, cs.length ≤ 1000 + 800 * fuel →
      ∀ c ∈ splitGo 1000 800 fuel cs, c.length ≤ 1000 := by
  induction fuel with
  | zero =>
      intro cs h c hc
      simp only [splitGo, List.mem_singleton] at hc
      subst hc
      omega
  | succ n ih =>
      intro cs h c hc
      by_cases hle : cs.length ≤ 1000
      · simp only [splitGo, if_pos hle, List.mem_singleton] at hc
        subst hc
        exact hle
      · simp only [splitGo, if_neg hle, List.mem_cons] at hc
        rcases hc with hc | hc
        · subst hc
          exact List.length_take_le _ _
        · exact ih _ (by simp only [List.length_drop]; omega) c hc

theorem splitGo_length_gt (fuel : Nat) :
    ∀ cs : List Char, 200 < cs.length →
      ∀ c ∈ splitGo 1000 800 fuel cs, 200 < c.length := by
  induction fuel with
  | zero =>
      intro cs h c hc
      simp only [splitGo, List.mem_singleton] at hc
      subst hc
      exact h
  | succ n ih =>
      intro cs h c hc
      by_cases hle : cs.length ≤ 1000
      · simp only [splitGo, if_pos hle, List.mem_singleton] at hc
        subst hc
        exact h
      · simp only [splitGo, if_neg hle, List.mem_cons] at hc
        rcases hc with hc | hc
        · subst hc
          simp only [List.length_take]
          omega
        · exact ih _ (by simp only [List.length_drop]; omega) c hc

theorem splitGo_head (fuel : Nat) (cs : List Char) :
    ∃ h t, splitGo 1000 800 fuel cs = h :: t ∧ h.take 200 = cs.take 200 := by
  cases fuel with
  | zero => exact ⟨cs, [], rfl, rfl⟩
  | succ n =>
      by_cases hle : cs.length ≤ 1000
      · exact ⟨cs, [], by simp [splitGo, hle], rfl⟩
      · refine ⟨cs.take 1000, splitGo 1000 800 n (cs.drop 800),
          by simp [splitGo, hle], ?_⟩
        rw [List.take_take]
        norm_num

theorem splitGo_chain (fuel : Nat) :
    ∀ cs : List Char,
      List.Chain' (fun a b => a.drop 800 = b.take 200) (splitGo 1000 800 fuel cs) := by
  induction fuel with
  | zero => intro cs; exact List.chain'_singleton cs
  | succ n ih =>
      intro cs
      by_cases hle : cs.length ≤ 1000
      · simp only [splitGo, if_pos hle]
        exact List.chain'_singleton cs
      · simp only [splitGo, if_neg hle]
        rw [List.chain'_cons']
        refine ⟨?_, ih _⟩
        intro y hy
        obtain ⟨h, t, heq, hh⟩ := splitGo_head n (cs.drop 800)
        rw [heq] at hy
        simp only [List.head?_cons, Option.mem_def, Option.some.injEq] at hy
        subst hy
        rw [hh, List.drop_take]

theorem splitChunks_of_le (cs : List Char) (h : cs.length ≤ 1000) :
    splitChunks 1000 200 cs = [cs] := by
  unfold splitChunks
  rcases hn : cs.length with _ | n
  · rfl
  · simp [splitGo, h]

theorem folderFileToDoc_spec (f : String) (file : FSFile) (d : Doc)
    (h : folderFileToDoc f file = some d) :
    ∃ rest, file.path = kbRoot :: f :: rest ∧
      d.source = file.path ∧ d.metadata = [] := by
  unfold folderFileToDoc at h
  split at h
  · split at h
    · rename_i r f' rest heq hcond
      obtain ⟨hr, hf, -, -⟩ := hcond
      obtain rfl := Option.some.inj h
      exact ⟨rest, by rw [heq, hr, hf], rfl, rfl⟩
    · exact absurd h (by simp)
  · exact absurd h (by simp)

theorem appendAll_history (m : Memory) (ts : List ConversationTurn) :
    (m.appendAll ts).history = m.history ++ ts := by
  induction ts generalizing m with
  | nil => simp [Memory.appendAll, Memory.history]
  | cons t ts ih =>
      obtain ⟨q, a⟩ := t
      show (Memory.appendAll (m.append q a) ts).history = _
      rw [ih]
      simp [Memory.append, Memory.history]

/-! ## Claims -/

/-- C2: for every Document whose text is longer than `chunk_size` (1000),
every chunk produced by the splitter has length at most 1000 (and more
than 200 characters, so the overlap below is a full overlap window), and
each pair of consecutive chunks overlaps in exactly `chunk_overlap` (200)
characters: the last 200 characters of a chunk are the first 200 of the
next. -/
theorem chunker_size_and_overlap (d : Doc) (h : 1000 < d.page_content.length) :
    (∀ c ∈ chunkDoc d, c.page_content.length ≤ 1000 ∧ 200 < c.page_content.length) ∧
    List.Chain' (fun a b => a.drop 800 = b.take 200)
      ((chunkDoc d).map Doc.page_content) := by
  constructor
  · intro c hc
    simp only [chunkDoc, List.mem_map] at hc
    obtain ⟨seg, hseg, rfl⟩ := hc
    have hseg' : seg ∈ splitGo 1000 800 d.page_content.length d.page_content := by
      simpa [splitChunks] using hseg
    refine ⟨?_, ?_⟩
    · exact splitGo_length_le d.page_content.length d.page_content (by omega) seg hseg'
    · exact splitGo_length_gt d.page_content.length d.page_content (by omega) seg hseg'
  · have hmap : (chunkDoc d).map Doc.page_content = splitChunks 1000 200 d.page_content := by
      unfold chunkDoc
      rw [List.map_map]
      have hf : (Doc.page_content ∘ fun seg =>
          ({ source := d.source, page_content := seg, metadata := d.metadata } : Doc))
          = id := rfl
      rw [hf, List.map_id]
    rw [hmap]
    simpa [splitChunks] using splitGo_chain d.page_content.length d.page_content

/-- Witness for C2 at a concrete 1001-character document. -/
theorem chunker_size_and_overlap_witness :
    1000 < (Doc.mk [] (List.replicate 1001 'a') []).page_content.length ∧
    ((∀ c ∈ chunkDoc (Doc.mk [] (List.replicate 1001 'a') []),
        c.page_content.length ≤ 1000 ∧ 200 < c.page_content.length) ∧
      List.Chain' (fun a b => a.drop 800 = b.take 200)
        ((chunkDoc (Doc.mk [] (List.replicate 1001 'a') [])).map Doc.page_content)) :=
  have h1001 : 1000 < (Doc.mk [] (List.replicate 1001 'a') []).page_content.length := by
    show 1000 < (List.replicate 1001 'a').length
    rw [List.length_replicate]
    norm_num
  ⟨h1001, chunker_size_and_overlap _ h1001⟩

/-- C3: a Document shorter than `chunk_size` yields exactly one chunk,
which is the document itself (same text, same source, same metadata). -/
theorem short_doc_single_chunk (d : Doc) (h : d.page_content.length < 1000) :
    chunkDoc d = [d] := by
  simp [chunkDoc, splitChunks_of_le d.page_content (by omega)]

/-- Witness for C3 at a concrete short document. -/
theorem short_doc_single_chunk_witness :
    (Doc.mk ["knowledge-base", "faq", "a.md"] "hello".toList
        [("doc_type", "faq")]).page_content.length < 1000 ∧
    chunkDoc (Doc.mk ["knowledge-base", "faq", "a.md"] "hello".toList
        [("doc_type", "faq")])
      = [Doc.mk ["knowledge-base", "faq", "a.md"] "hello".toList
        [("doc_type", "faq")]] :=
  ⟨by decide, short_doc_single_chunk _ (by decide)⟩

/-- C10: `add_metadata` sets exactly the key `doc_type` and leaves the
source path, the page content and every other metadata key unchanged. -/
theorem add_metadata_frame (d : Doc) (t : String) :
    (add_metadata d t).source = d.source ∧
    (add_metadata d t).page_content = d.page_content ∧
    getMeta (add_metadata d t).metadata "doc_type" = some t ∧
    ∀ k, k ≠ "doc_type" →
      getMeta (add_metadata d t).metadata k = getMeta d.metadata k := by
  refine ⟨rfl, rfl, ?_, ?_⟩
  · simpa [add_metadata] using
      getMeta_setMeta_self d.metadata "doc_type" t
  · intro k hk
    simpa [add_metadata] using
      getMeta_setMeta_of_ne d.metadata "doc_type" t k hk

/-- Witness for C10 at a concrete document, checking in particular that the
`source` metadata key is untouched. -/
theorem add_metadata_frame_witness :
    (("source" : String) ≠ "doc_type") ∧
    getMeta (add_metadata (Doc.mk ["knowledge-base", "faq", "a.md"] "hi".toList
        [("source", "knowledge-base/faq/a.md")]) "faq").metadata "source"
      = getMeta [("source", "knowledge-base/faq/a.md")] "source" ∧
    getMeta (add_metadata (Doc.mk ["knowledge-base", "faq", "a.md"] "hi".toList
        [("source", "knowledge-base/faq/a.md")]) "faq").metadata "doc_type"
      = some "faq" :=
  ⟨by decide,
    (add_metadata_frame _ "faq").2.2.2 "source" (by decide),
    (add_metadata_frame _ "faq").2.2.1⟩

/-- C4: `reset()` followed by `add(cs)` followed by `count()` returns
exactly the number of chunks added, and rebuilding twice from the same
corpus yields the same count as rebuilding once. -/
theorem reset_add_count (s : VectorStore) (cs : List EmbeddedChunk) :
    ((s.reset).add cs).count = cs.length ∧
    (rebuildStore (rebuildStore s cs) cs).count = (rebuildStore s cs).count := by
  constructor
  · simp [VectorStore.reset, VectorStore.add, VectorStore.count]
  · rfl

/-- C5: `query(v, k)` returns exactly `min k (store size)` results, ordered
by non-decreasing distance from `v`. -/
theorem query_count_sorted (s : VectorStore) (v : List Int) (k : Nat) :
    (s.query v k).length = min k s.count ∧
    List.Pairwise (fun a b => sqDist a.vec v ≤ sqDist b.vec v) (s.query v k) := by
  constructor
  · simp [VectorStore.query, VectorStore.count]
  · have hsorted : (s.entries.mergeSort
        (fun a b => decide (sqDist a.vec v ≤ sqDist b.vec v))).Pairwise
        (fun a b => decide (sqDist a.vec v ≤ sqDist b.vec v)) :=
      List.sorted_mergeSort
        (by
          intro a b c h₁ h₂
          simp only [decide_eq_true_eq] at h₁ h₂ ⊢
          exact le_trans h₁ h₂)
        (by
          intro a b
          simp only [Bool.or_eq_true, decide_eq_true_eq]
          exact le_total _ _)
        s.entries
    refine List.Pairwise.imp ?_
      (List.Pairwise.sublist (List.take_sublist _ _) hsorted)
    intro a b h
    exact of_decide_eq_true h

/-- C6: appending turns to the conversation memory yields a history of the
same length, in append order, and a later append never removes or reorders
the earlier turns (they stay as a prefix, in order). -/
theorem memory_append_order (ts : List ConversationTurn) :
    (Memory.appendAll ⟨[]⟩ ts).history.length = ts.length ∧
    (Memory.appendAll ⟨[]⟩ ts).history = ts ∧
    ∀ (m : Memory) (q a : String),
      (m.append q a).history = m.history ++ [⟨q, a⟩] := by
  have hall : (Memory.appendAll ⟨[]⟩ ts).history = ts := by
    simpa using appendAll_history ⟨[]⟩ ts
  exact ⟨by rw [hall], hall, fun m q a => rfl⟩

/-- C7: when the CALL_LLM step fails, the orchestrator surfaces the error
and the conversation memory is returned unchanged — no turn, complete or
partial, is recorded. -/
theorem failed_llm_preserves_memory (env : OrchestratorEnv) (mem : Memory)
    (q : String) (v : List Int) (hembed : env.embed q = some v)
    (hllm : env.llm (assemblePrompt (env.store.query v env.k) mem.history q) = none) :
    (answerTurn env mem q).1 = mem ∧
    (answerTurn env mem q).2 = Except.error "chat completion failed" := by
  simp [answerTurn, hembed, hllm]

/-- Witness for C7: a concrete environment whose LLM client always fails
leaves a concrete memory untouched. -/
theorem failed_llm_preserves_memory_witness :
    envFailLLM.embed "hi" = some [] ∧
    envFailLLM.llm (assemblePrompt (envFailLLM.store.query [] envFailLLM.k)
      (Memory.mk []).history "hi") = none ∧
    ((answerTurn envFailLLM ⟨[]⟩ "hi").1 = (⟨[]⟩ : Memory) ∧
      (answerTurn envFailLLM ⟨[]⟩ "hi").2 = Except.error "chat completion failed") :=
  ⟨rfl, rfl, failed_llm_preserves_memory envFailLLM ⟨[]⟩ "hi" [] rfl rfl⟩

/-- C9: the notebook's `chat(question, history)` ignores the UI-supplied
`history` argument entirely — for any two history arguments the result is
identical (two-run noninterference in the history argument). -/
theorem chat_ignores_history (c : ChainState) (q : String)
    (h₁ h₂ : List (String × String)) : chat c q h₁ = chat c q h₂ := rfl

/-- C1 counterexample: in a knowledge base holding the single file
`knowledge-base/policies/sub/f.md`, the produced chunk carries
`doc_type = "policies"` (the first-level subdirectory) while the file's
immediate parent folder is `"sub"`, so the claim that every chunk's
`doc_type` equals the immediate parent folder name fails. -/
theorem doc_type_not_parent_counterexample :
    ¬ (∀ c ∈ chunks fsNested, getMeta c.metadata "doc_type" = parentOf c.source) := by
  decide

/-- C1 amended: every chunk's `doc_type` equals the name of the first-level
subdirectory of the knowledge-base root below which the file lies (the
second component of its source path); this coincides with the immediate
parent folder only for files exactly one level below that subdirectory. -/
theorem chunk_doc_type_first_level (fs : List FSFile) (c : Doc)
    (hc : c ∈ chunks fs) :
    ∃ f rest, c.source = kbRoot :: f :: rest ∧
      getMeta c.metadata "doc_type" = some f := by
  simp only [chunks, split_documents, List.mem_flatMap] at hc
  obtain ⟨d, hd, hcd⟩ := hc
  simp only [chunkDoc, List.mem_map] at hcd
  obtain ⟨seg, hseg, rfl⟩ := hcd
  simp only [documents, List.mem_flatMap, List.mem_map] at hd
  obtain ⟨f, hf, d₀, hd₀, rfl⟩ := hd
  simp only [loadFolder, List.mem_filterMap] at hd₀
  obtain ⟨file, hfile, hsome⟩ := hd₀
  obtain ⟨rest, hpath, hsrc, hmeta⟩ := folderFileToDoc_spec f file d₀ hsome
  refine ⟨f, rest, ?_, ?_⟩
  · show (add_metadata d₀ f).source = _
    rw [add_metadata, hsrc, hpath]
  · show getMeta (add_metadata d₀ f).metadata "doc_type" = some f
    rw [add_metadata]
    simp only [hmeta]
    simp [setMeta, getMeta]

/-- Witness for the amended C1 at the nested concrete knowledge base. -/
theorem chunk_doc_type_first_level_witness :
    (Doc.mk ["knowledge-base", "policies", "sub", "f.md"] "hello".toList
        [("doc_type", "policies")]) ∈ chunks fsNested ∧
    ∃ f rest,
      (Doc.mk ["knowledge-base", "policies", "sub", "f.md"] "hello".toList
        [("doc_type", "policies")]).source = kbRoot :: f :: rest ∧
      getMeta (Doc.mk ["knowledge-base", "policies", "sub", "f.md"] "hello".toList
        [("doc_type", "policies")]).metadata "doc_type" = some f :=
  ⟨by decide, chunk_doc_type_first_level fsNested _ (by decide)⟩

/-- C8 counterexample: with a filesystem in which the `knowledge-base`
directory does not exist, the loading stage does not fail — it returns
normally with an empty document set — refuting the claim that ingestion
aborts as a fatal configuration error. -/
theorem missing_root_counterexample :
    ¬ (dirExistsB fsNoRoot kbRoot = false →
        ∃ e, loadDocumentsE fsNoRoot = Except.error e) := by
  intro h
  obtain ⟨e, he⟩ := h (by decide)
  exact absurd he (by simp [loadDocumentsE])

/-- C8 amended: if the knowledge-base root directory does not exist,
`glob.glob` matches no folders and ingestion proceeds with an empty
document set (no error is raised at the loading stage). -/
theorem missing_root_empty_ingestion (fs : List FSFile)
    (h : dirExistsB fs kbRoot = false) :
    loadDocumentsE fs = Except.ok [] := by
  have hnone : ∀ file ∈ fs, ¬ (file.path.head? == some kbRoot) = true := by
    simpa [dirExistsB, List.any_eq_false] using h
  have hfold : folders fs = [] := by
    unfold folders
    rw [List.dedup_eq_nil, List.filterMap_eq_nil_iff]
    intro file hfile
    rcases hp : file.path with _ | ⟨r, _ | ⟨f', _ | ⟨x, xs⟩⟩⟩
    · rfl
    · rfl
    · rfl
    · have hr : r ≠ kbRoot := by
        have hthis := hnone file hfile
        rw [hp] at hthis
        simpa using hthis
      simp [hr]
  unfold loadDocumentsE
  rw [show documents fs = [] from by unfold documents; rw [hfold]; rfl]

/-- Witness for the amended C8 at the concrete root-less filesystem. -/
theorem missing_root_empty_ingestion_witness :
    dirExistsB fsNoRoot kbRoot = false ∧
    loadDocumentsE fsNoRoot = Except.ok [] :=
  ⟨by decide, missing_root_empty_ingestion fsNoRoot (by decide)⟩

end RAG
